import Mathlib

/-!
Shallow embedding of the heuristic form-extraction engine of `ddd_api.py`
(repository `vibheksoni/ddd-client`), together with proofs settling the
frozen claims about its specification.

The HTML tree abstraction models the BeautifulSoup (`html.parser`) view of a
parsed fragment: a node is an element (tag, attribute list, ordered
children) or a text node.  A parsed fragment ("soup") is the list of its
top-level nodes.  BeautifulSoup semantics that the source relies on and
that are modelled explicitly here:
  * `find_all` / `find` search strict descendants in document (pre-)order;
    on the soup object they search every node of the fragment;
  * `Tag.__bool__` is derived from `__len__`: a tag is truthy iff its list
    of contents is non-empty (so an empty `<label></label>` or a void
    `<input>` element is falsy);
  * an attribute filter value of `None` matches tags where the attribute is
    absent (or empty), a string value matches exactly, except that a falsy
    filter value also matches an absent attribute;
  * `class_` filters match against each whitespace-separated class of the
    tag and against the space-joined class string;
  * `Tag.__eq__` is structural (same name, attributes and contents);
  * `get_text(strip=True)` joins the stripped, non-empty descendant strings
    with no separator; `get_text()` concatenates the raw descendant strings;
  * `find_all_previous` walks the document-order predecessors (ancestors
    included) nearest-first; `find_next_sibling()` returns the next sibling
    that is a tag, skipping text nodes;
  * Python truthiness of strings (`if name:`) is non-emptiness.
Python's `str.strip` / `str.lower` are modelled by the character-level
`pyStrip` / `pyLower` (they agree on the ASCII data the heuristics
inspect), and `len` on `str` counts characters, as `String.length` does.
-/

mutual

/-- One node of the parsed HTML fragment: an element with its tag name,
attribute list and ordered children, or a text node. -/
inductive Node where
  | elem (tag : String) (attrs : List (String × String)) (children : NodeList)
  | text (s : String)
deriving DecidableEq

/-- An ordered forest of nodes (the children of an element, or the
top-level nodes of a parsed fragment).  A mutual inductive rather than
`List Node`, so that every tree recursion is structural and evaluates by
kernel reduction. -/
inductive NodeList where
  | nil
  | cons (head : Node) (tail : NodeList)
deriving DecidableEq

end

/-- The forest as an ordinary list of its top-level nodes. -/
def NodeList.toList : NodeList → List Node
  | .nil => []
  | .cons n ns => n :: ns.toList

/-- Build a forest from an ordinary list of nodes. -/
def NodeList.ofList : List Node → NodeList
  | [] => .nil
  | n :: ns => .cons n (NodeList.ofList ns)

/-- Whether the forest is empty. -/
def NodeList.isNil : NodeList → Bool
  | .nil => true
  | .cons _ _ => false

/-- First-match association-list lookup (Python `dict.get` on the
modelled dictionaries, and attribute lookup on parsed tags). -/
def alookup (k : String) : List (String × String) → Option String
  | [] => none
  | (a, b) :: d => if k = a then some b else alookup k d

namespace Node

/-- The children of a node (empty for text nodes). -/
def children : Node → NodeList
  | .elem _ _ c => c
  | .text _ => .nil

/-- The attribute list of a node (empty for text nodes). -/
def attrs : Node → List (String × String)
  | .elem _ a _ => a
  | .text _ => []

/-- `tag.get(key)`: the first attribute with the given key, if any. -/
def getAttr (n : Node) (k : String) : Option String :=
  alookup k n.attrs

/-- Whether the node is an element with the given tag name. -/
def isTag (t : String) : Node → Bool
  | .elem tag _ _ => tag = t
  | .text _ => false

/-- Whether the node is an element (a bs4 `Tag`). -/
def isElem : Node → Bool
  | .elem _ _ _ => true
  | .text _ => false

/-- The text content of a text node. -/
def textOf : Node → Option String
  | .text s => some s
  | .elem _ _ _ => none

/-- Python/bs4 truthiness of a `Tag`: its list of contents is non-empty. -/
def truthy : Node → Bool
  | .elem _ _ c => !c.isNil
  | .text s => s ≠ ""

end Node

mutual

/-- The subtree of a node in document (pre-)order, the node first. -/
def Node.pre : Node → List Node
  | .text s => [.text s]
  | .elem t a c => .elem t a c :: NodeList.pre c

/-- All nodes of a forest in document (pre-)order. -/
def NodeList.pre : NodeList → List Node
  | .nil => []
  | .cons n ns => Node.pre n ++ NodeList.pre ns

end

/-- The strict descendants of a node in document order. -/
def Node.descendants (n : Node) : List Node :=
  NodeList.pre n.children

/-- All descendant strings of a forest in document order
(`find_all(string=True)`). -/
def textsUnder (ns : NodeList) : List String :=
  ns.pre.filterMap Node.textOf

/-- Whether `pat` occurs as a contiguous substring of `s`
(Python's `pat in s`), on the underlying character lists. -/
def subChars (pat : List Char) : List Char → Bool
  | [] => pat.isEmpty
  | c :: rest => pat.isPrefixOf (c :: rest) || subChars pat rest

/-- `pat in s` for strings. -/
def containsSub (s pat : String) : Bool :=
  subChars pat.data s.data

/-- Python `str.strip()`: drop leading and trailing whitespace (defined on
the character list so that concrete proofs can evaluate it). -/
def pyStrip (s : String) : String :=
  String.mk (((s.data.dropWhile Char.isWhitespace).reverse.dropWhile
    Char.isWhitespace).reverse)

/-- Python `str.lower()` (ASCII case folding; the heuristics compare only
ASCII keywords). -/
def pyLower (s : String) : String :=
  String.mk (s.data.map Char.toLower)

/-- `get_text(strip=True)`: the stripped, non-empty descendant strings
joined with no separator. -/
def Node.getTextStrip (n : Node) : String :=
  String.join (((textsUnder n.children).map pyStrip).filter (· ≠ ""))

/-- `get_text()`: the raw descendant strings concatenated. -/
def Node.getTextRaw (n : Node) : String :=
  String.join (textsUnder n.children)

/-- The whitespace-separated classes of a node's `class` attribute
(`html.parser` stores `class` as a multi-valued attribute). -/
def Node.classList (n : Node) : Option (List String) :=
  (n.getAttr "class").map fun cv => (cv.split Char.isWhitespace).filter (· ≠ "")

/-- bs4 matching of a `class_` predicate: the predicate is applied to
`none` when the tag has no `class` attribute; otherwise to each individual
class and to the space-joined class string. -/
def Node.classPred (f : Option String → Bool) (n : Node) : Bool :=
  match n.classList with
  | none => f none
  | some cls => cls.any (fun c => f (some c)) || f (some (String.intercalate " " cls))

/-- bs4 matching of `class_="x"` for a literal class string: equality with
one of the classes or with the joined class string. -/
def Node.hasClass (n : Node) (x : String) : Bool :=
  n.classPred (fun c => c = some x)

/-- bs4 matching of a single attribute filter entry `{k: v}`:
a `none` (or empty) filter value matches an absent or empty attribute,
a string matches exactly. -/
def Node.attrFilter (n : Node) (k : String) (v : Option String) : Bool :=
  match n.getAttr k with
  | none => v = none || v = some ""
  | some a =>
      if a = "" then v = none || v = some ""
      else v = some a

mutual

/-- Removal inside one node: remove the first descendant matching `p`
from the node's subtree (the node itself is not a candidate). -/
def Node.removeIn (p : Node → Bool) : Node → Node × Bool
  | .text s => (.text s, false)
  | .elem t a c =>
      match NodeList.removeFirst p c with
      | (c2, b) => (.elem t a c2, b)

/-- bs4 preorder removal of the first node matching `p` from a forest
(`find` + `decompose`), returning the modified forest and whether a node
was removed.  The predicates used match only elements, so a text head is
never removed itself. -/
def NodeList.removeFirst (p : Node → Bool) : NodeList → NodeList × Bool
  | .nil => (.nil, false)
  | .cons n ns =>
      if p n then (ns, true)
      else
        match Node.removeIn p n with
        | (n2, true) => (.cons n2 ns, true)
        | (_, false) =>
            match NodeList.removeFirst p ns with
            | (r, b) => (.cons n r, b)

end

mutual

/-- Context walk of one node: the element matches of `p` in its subtree in
document order, each with its ancestor chain (nearest first) and following
siblings; `sibs` are the following siblings of the node itself. -/
def Node.ctxWalkN (p : Node → Bool) (anc : List Node) (sibs : NodeList) :
    Node → List (Node × List Node × List Node)
  | .text _ => []
  | .elem t a c =>
      let self := Node.elem t a c
      (if p self then [(self, anc, sibs.toList)] else [])
        ++ NodeList.ctxWalkL p (self :: anc) c

/-- Context walk of a forest, in document order. -/
def NodeList.ctxWalkL (p : Node → Bool) (anc : List Node) :
    NodeList → List (Node × List Node × List Node)
  | .nil => []
  | .cons n ns => Node.ctxWalkN p anc ns n ++ NodeList.ctxWalkL p anc ns

end

/-- All element matches of `p` in a forest, in document order, each with
its ancestor chain inside the forest (nearest first) and its list of
following siblings. -/
def ctxWalk (p : Node → Bool) (anc : List Node) (ns : NodeList) :
    List (Node × List Node × List Node) :=
  NodeList.ctxWalkL p anc ns

mutual

/-- Search one node for the first `<form>` element of its subtree,
threading the ancestor chain and the reverse-document-order predecessor
accumulator. -/
def Node.findFormIn (anc prevs : List Node) : Node → Option (Node × List Node × List Node)
  | .text _ => none
  | .elem t a c =>
      let self := Node.elem t a c
      if t = "form" then some (self, anc, prevs)
      else NodeList.findForm (self :: anc) (self :: prevs) c

/-- Search a forest left to right for the first `<form>` element. -/
def NodeList.findForm (anc prevs : List Node) : NodeList → Option (Node × List Node × List Node)
  | .nil => none
  | .cons n ns =>
      match Node.findFormIn anc prevs n with
      | some r => some r
      | none => NodeList.findForm anc (n.pre.reverse ++ prevs) ns

end

/-- Locate the first `<form>` element of the fragment in document order,
returning it with its ancestor chain (nearest first) and the list of its
document-order predecessors (nearest first), as bs4's `find('form')`,
`find_parent` and `find_all_previous` see them. -/
def findFormCtx (roots : NodeList) : Option (Node × List Node × List Node) :=
  NodeList.findForm [] [] roots


/-- The kinds of form fields (`FormFieldType` in the source). -/
inductive FormFieldType where
  | TEXT
  | TEXTAREA
  | Radio
  | CHECKBOX
  | SELECT
  | UNKNOWN
deriving DecidableEq, Repr

/-- One logical input of a form (`FormField` in the source).  An option is
a `(value, label)` pair. -/
structure FormField where
  name : String
  field_type : FormFieldType
  label : Option String := none
  options : List (String × String) := []
  value : Option String := none
  required : Bool := false
deriving DecidableEq, Repr

/-- One logical form (`FormData` in the source). -/
structure FormData where
  form_id : String
  fields : List FormField := []
  question_text : Option String := none
deriving DecidableEq, Repr

/-- Insertion into a Python `dict` modelled as an association list with
unique keys: an existing key keeps its position and gets the new value,
a new key is appended. -/
def dictInsert (d : List (String × String)) (k v : String) : List (String × String) :=
  if d.any (fun p => p.1 == k) then d.map (fun p => if p.1 = k then (k, v) else p)
  else d ++ [(k, v)]

/-- One step of the `to_dict` comprehension: a field with a value writes
its `(name, value)` entry, a valueless field contributes nothing. -/
def dictStep (d : List (String × String)) (f : FormField) : List (String × String) :=
  match f.value with
  | some v => dictInsert d f.name v
  | none => d

/-- `FormData.to_dict`: the dict comprehension
`{field.name: field.value for field in self.fields if field.value is not None}`. -/
def FormData.to_dict (fd : FormData) : List (String × String) :=
  fd.fields.foldl dictStep []

/-- The per-field effect of `FormData.from_dict`: a field whose name is a
key of `data` gets that value, any other field is untouched. -/
def updField (data : List (String × String)) (f : FormField) : FormField :=
  match alookup f.name data with
  | some v => { f with value := some v }
  | none => f

/-- `FormData.from_dict`: for each field whose name is a key of `data`,
set the field's value to the mapped value (all other fields untouched). -/
def FormData.from_dict (fd : FormData) (data : List (String × String)) : FormData :=
  { fd with fields := fd.fields.map (updField data) }

/-- The `<input>` `type` values that the source maps to a TEXT field. -/
def textInputTypes : List String :=
  ["text", "password", "email", "number", "hidden", "submit", "button", "reset",
   "file", "image", "search", "tel", "url", "date", "datetime-local", "month",
   "week", "time", "color"]

/-- The fixed German interrogative words used by the text heuristics. -/
def germanQuestionWords : List String :=
  ["wer", "was", "wo", "wann", "warum", "wie", "welche", "welcher", "welches",
   "wohin", "woher"]

namespace FormParser

/-- `form_element.find('label', {'for': v})` for a truthy filter value. -/
def findLabelFor (scope : NodeList) (v : String) : Option Node :=
  scope.pre.find? fun n => n.isTag "label" && n.attrFilter "for" (some v)

/-- The tag name of the parent of a node found inside the search scope:
the nearest in-scope ancestor, or the scope's root element (the form, or
the `[document]` object) when the node sits at scope top level. -/
def parentTagOf (anc : List Node) (rootTag : String) : String :=
  match anc with
  | .elem t _ _ :: _ => t
  | .text _ :: _ => ""
  | [] => rootTag

/-- Per-option label search of `FormParser._find_label` for one concrete
radio/checkbox `<input>` (its ancestors and following siblings given by the
context walk): label `for` its id, then a following-sibling label, then a
wrapping ancestor label with the input excised from a structural clone. -/
def optionLabelFor (scope : NodeList) (fieldName v : String)
    (m : Node × List Node × List Node) : Option String :=
  let step1 : Option String :=
    match m.1.getAttr "id" with
    | some iid =>
        if iid ≠ "" then
          match findLabelFor scope iid with
          | some l => if l.truthy then some l.getTextStrip else none
          | none => none
        else none
    | none => none
  let step2 : Option String :=
    match m.2.2.find? Node.isElem with
    | some sib => if sib.truthy && sib.isTag "label" then some sib.getTextStrip else none
    | none => none
  let step3 : Option String :=
    match m.2.1.find? (·.isTag "label") with
    | some pl =>
        if pl.truthy then
          some (Node.getTextStrip (.elem "label" pl.attrs
            (NodeList.removeFirst (fun n => n.isTag "input"
              && n.attrFilter "name" (some fieldName)
              && n.attrFilter "value" (some v)) pl.children).1))
        else some pl.getTextStrip
    | none => none
  step1 <|> step2 <|> step3

/-- `FormParser._find_label`: the cascade resolving a human-readable label
for a field, searched inside the form element's subtree.  `rootTag` is the
tag of the search root (`"form"`, or `"[document]"` for a synthetic
region), used as the parent of scope-top-level matches. -/
def find_label (scope : NodeList) (rootTag : String) (fieldName : String)
    (fieldId : Option String) (valueAttr : Option String) : Option String :=
  let step1 : Option String :=
    match fieldId with
    | some fid =>
        if fid ≠ "" then
          match findLabelFor scope fid with
          | some l => if l.truthy then some l.getTextStrip else none
          | none => none
        else none
    | none => none
  let step2 : Option String :=
    match valueAttr with
    | some v =>
        (ctxWalk (fun n => n.isTag "input" && n.attrFilter "name" (some fieldName)
            && n.attrFilter "value" (some v)) [] scope).findSome?
          (optionLabelFor scope fieldName v)
    | none => none
  let step3 : Option String :=
    match findLabelFor scope fieldName with
    | some l => if l.truthy then some l.getTextStrip else none
    | none => none
  let step4 : Option String :=
    let cands1 := ctxWalk (fun n => n.isTag "input" && n.attrFilter "name" (some fieldName)
      && n.attrFilter "id" fieldId) [] scope
    let cands2 := ctxWalk (fun n => n.isTag "input" && n.attrFilter "name" (some fieldName))
      [] scope
    let target := match cands1.head? with
      | some m => if m.1.truthy then some m else cands2.head?
      | none => cands2.head?
    match target with
    | some m =>
        if m.1.truthy && parentTagOf m.2.1 rootTag = "label" then
          match m.2.1.head? with
          | some par => some par.getTextStrip
          | none => none
        else none
    | none => none
  step1 <|> step2 <|> step3 <|> step4

end FormParser

/-- The context in which `FormParser._extract_question_text` searches:
the form element (or `none` when the whole soup is the search root), the
nodes its `find`/`find_all` traverse, its ancestors and document-order
predecessors inside the re-parsed region, and the region's root nodes
(the children of the document object). -/
structure QCtx where
  selfElem : Option Node
  scope : NodeList
  ancestors : List Node
  prevs : List Node
  roots : NodeList

namespace FormParser

/-- Strategy of `_extract_question_text` for one exact marker class:
first descendant `div` of that class with non-empty stripped text. -/
def qsMarker (scope : NodeList) (cls : String) : Option String :=
  (scope.pre.filterMap fun n =>
    if n.isTag "div" && n.hasClass cls then
      if n.getTextStrip ≠ "" then some n.getTextStrip else none
    else none).head?

/-- Strategy of `_extract_question_text` for `class` containing
"exercise": the text must have length strictly between 5 and 500 and the
div's first descendant form must differ (structurally) from the search
root. -/
def qsExercise (scope : NodeList) (selfElem : Option Node) : Option String :=
  (scope.pre.filterMap fun n =>
    if n.isTag "div" && n.classPred (fun c =>
        match c with
        | none => false
        | some s => s ≠ "" && containsSub (pyLower s) "exercise") then
      let t := n.getTextStrip
      let firstForm := n.descendants.find? (·.isTag "form")
      let differs : Bool :=
        match selfElem with
        | none => true
        | some el => decide (firstForm ≠ some el)
      if differs && 5 < t.length && t.length < 500 then some t else none
    else none).head?

/-- `FormParser._extract_question_text`: the ordered cascade resolving the
question text of a form region; returns `""` when no strategy matches. -/
def extract_question_text (ctx : QCtx) : String :=
  let s1 := qsMarker ctx.scope "rs-exercise-prompt"
  let s2 := qsMarker ctx.scope "rs-exercise-instruction"
  let s3 := qsMarker ctx.scope "rs-exercise-question"
  let s4 := qsExercise ctx.scope ctx.selfElem
  let s5 : Option String :=
    match ctx.ancestors.find? (·.isTag "div") with
    | some pd =>
        ((pd.descendants.filter fun n =>
          (n.isTag "div" || n.isTag "p") && n.classPred (fun c =>
            match c with
            | none => false
            | some s => s ≠ "" && (containsSub (pyLower s) "question"
                || containsSub (pyLower s) "prompt"
                || containsSub (pyLower s) "instruction"))).head?).map Node.getTextStrip
    | none => none
  let s6 : Option String :=
    ((ctx.prevs.filter fun n =>
      ["p", "h1", "h2", "h3", "h4", "h5", "h6", "div"].any (n.isTag ·)).take 5).findSome?
      fun e =>
        let t := e.getTextStrip
        if t ≠ "" && 5 < t.length && t.length < 500 then some t else none
  let s7 : Option String :=
    match ctx.scope.pre.find? (·.isTag "legend") with
    | some lg => if lg.truthy then some lg.getTextStrip else none
    | none => none
  let s8 : Option String :=
    (ctx.scope.pre.filter fun n =>
      n.isTag "div" && n.classPred (fun c =>
        match c with
        | none => false
        | some s => s ≠ "" && (containsSub (pyLower s) "form-group"
            || containsSub (pyLower s) "field-group"))).findSome? fun g =>
      ((g.descendants.filter fun n =>
        ["label", "h3", "h4", "p"].any (n.isTag ·)).head?).map Node.getTextStrip
  let s9 : Option String :=
    let parentChildren : Option (List Node) :=
      match ctx.ancestors with
      | a :: _ =>
          if a.isTag "body" || a.isTag "html" then none else some a.children.toList
      | [] =>
          match ctx.selfElem with
          | some _ => some ctx.roots.toList
          | none => none
    match parentChildren with
    | some cs => cs.findSome? fun c =>
        match c with
        | .text s => if pyStrip s ≠ "" then some (pyStrip s) else none
        | .elem _ _ _ => none
    | none => none
  let s10 : Option String :=
    let t := ctx.selfElem.bind (·.getAttr "title")
    let a := ctx.selfElem.bind (·.getAttr "aria-label")
    let ft := match t with
      | some s => if s ≠ "" then some s else a
      | none => a
    match ft with
    | some s => if s ≠ "" then some s else none
    | none => none
  let s11 : Option String :=
    match ctx.ancestors.find? (fun n => n.isTag "div" || n.isTag "section") with
    | some sc =>
        let fromParas :=
          (sc.descendants.filter fun n =>
            (n.isTag "p" || n.isTag "div") && n.classPred (fun c =>
              match c with
              | none => true
              | some s => s = "" || containsSub (pyLower s) "question")).findSome? fun p =>
            let t := p.getTextStrip
            if t ≠ "" && containsSub t "?" && t.length < 500 then some t else none
        match fromParas with
        | some t => some t
        | none =>
            (textsUnder sc.children).findSome? fun s =>
              if germanQuestionWords.any (containsSub (pyLower s) ·)
                  && 10 < s.length && s.length < 500 then
                some (pyStrip s)
              else none
    | none => none
  let s13 : Option String :=
    let fieldLabels := ctx.scope.pre.filterMap fun n =>
      if n.isTag "label" then
        let t := n.getTextStrip
        if t ≠ "" && t.length > 3 then some t else none
      else none
    if fieldLabels.isEmpty then
      ctx.scope.pre.findSome? fun n =>
        if n.isTag "input" then
          match n.getAttr "placeholder" with
          | some p => if p ≠ "" && p.length > 3 then some ("Input: " ++ p) else none
          | none => none
        else none
    else
      some (String.intercalate " / " (fieldLabels.take 3)
        ++ if fieldLabels.length > 3 then " ..." else "")
  let s14 : Option String :=
    match ctx.selfElem with
    | some el =>
        if el.isTag "form" then
          match el.getAttr "id" with
          | some i => if i ≠ "" then some ("Exercise " ++ i) else none
          | none => none
        else none
    | none => none
  (s1 <|> s2 <|> s3 <|> s4 <|> s5 <|> s6 <|> s7 <|> s8 <|> s9 <|> s10
    <|> s11 <|> s13 <|> s14).getD ""

end FormParser

mutual

/-- The number of nodes of a subtree. -/
def Node.count : Node → Nat
  | .text _ => 1
  | .elem _ _ c => 1 + NodeList.count c

/-- The number of nodes of a forest. -/
def NodeList.count : NodeList → Nat
  | .nil => 0
  | .cons n ns => Node.count n + NodeList.count ns

end

/-- The source's `form_html_hash` derives a synthetic id as `"synthetic-"`
followed by the first 8 hex characters of the md5 of the serialized region
markup.  The digest itself is irrelevant to every claim (only the
`"synthetic-"` prefix is ever inspected), so it is modelled by a fixed
size-derived function of the region. -/
def form_html_hash (roots : NodeList) : String :=
  "synthetic-" ++ toString (NodeList.count roots)

namespace FormParser

/-- Append an option to the first field carrying the given name
(`next(f for f in form_data.fields if f.name == name)` followed by the
in-place `options.append`). -/
def appendOption : List FormField → String → String × String → List FormField
  | [], _, _ => []
  | f :: fs, n, opt =>
      if f.name = n then { f with options := f.options ++ [opt] } :: fs
      else f :: appendOption fs n opt

/-- Process of one `<input>` element inside `parse_form`'s input loop:
unnamed inputs are skipped, text-like types append a TEXT field, radio and
checkbox inputs either append an option to the first existing field of the
same name or append a fresh Radio/CHECKBOX field; other types are ignored. -/
def processInput (scope : NodeList) (rootTag : String)
    (fields : List FormField) (inp : Node) : List FormField :=
  let ty := pyLower ((inp.getAttr "type").getD "text")
  match inp.getAttr "name" with
  | none => fields
  | some name =>
      if name = "" then fields
      else if textInputTypes.contains ty then
        fields ++ [{ name := name, field_type := .TEXT,
                     label := find_label scope rootTag name (inp.getAttr "id") none,
                     options := [],
                     value := inp.getAttr "value",
                     required := (inp.getAttr "required").isSome }]
      else if ty = "radio" || ty = "checkbox" then
        let v := (inp.getAttr "value").getD ""
        let optLabel := find_label scope rootTag name (inp.getAttr "id") (some v)
        let optPair : String × String :=
          (v, match optLabel with
              | some l => if l = "" then v else l
              | none => v)
        if fields.any (fun fl => fl.name == name) then
          appendOption fields name optPair
        else
          fields ++ [{ name := name,
                       field_type := if ty = "radio" then .Radio else .CHECKBOX,
                       label := find_label scope rootTag name (inp.getAttr "id") none,
                       options := [optPair],
                       value := none,
                       required := (inp.getAttr "required").isSome }]
      else fields

/-- The fields contributed by `parse_form`'s `<textarea>` loop, in document
order of the named textareas. -/
def textareaFields (scope : NodeList) (rootTag : String) : List FormField :=
  (scope.pre.filter (·.isTag "textarea")).filterMap fun ta =>
    match ta.getAttr "name" with
    | some n =>
        if n = "" then none
        else some { name := n, field_type := .TEXTAREA,
                    label := find_label scope rootTag n (ta.getAttr "id") none,
                    options := [],
                    value := some ta.getTextRaw,
                    required := (ta.getAttr "required").isSome }
    | none => none

/-- One `<option>` of a `<select>`: append the `(value-attr-or-text, text)`
pair to the field's options; a selected option also sets the field's
value. -/
def selOption (fl : FormField) (opt : Node) : FormField :=
  let v := (opt.getAttr "value").getD opt.getTextStrip
  let l := opt.getTextStrip
  let fl2 := { fl with options := fl.options ++ [(v, l)] }
  if (opt.getAttr "selected").isSome then { fl2 with value := some v }
  else fl2

/-- The fields contributed by `parse_form`'s `<select>` loop, in document
order of the named selects. -/
def selectFields (scope : NodeList) (rootTag : String) : List FormField :=
  (scope.pre.filter (·.isTag "select")).filterMap fun sel =>
    match sel.getAttr "name" with
    | some n =>
        if n = "" then none
        else
          let base : FormField :=
            { name := n, field_type := .SELECT,
              label := find_label scope rootTag n (sel.getAttr "id") none,
              options := [],
              value := none,
              required := (sel.getAttr "required").isSome }
          some ((sel.descendants.filter (·.isTag "option")).foldl selOption base)
    | none => none

/-- The nodes over which `parse_form`'s field loops search: the children
of the first `<form>` element when one exists, otherwise the whole soup. -/
def parseScope (roots : NodeList) : NodeList :=
  match findFormCtx roots with
  | some (f, _, _) => f.children
  | none => roots

/-- The tag of `parse_form`'s search root: `"form"` when a form element
was found, the bs4 `"[document]"` name otherwise. -/
def parseRootTag (roots : NodeList) : String :=
  match findFormCtx roots with
  | some _ => "form"
  | none => "[document]"

/-- The `<input>` elements of a scope in document order. -/
def inputsIn (scope : NodeList) : List Node :=
  scope.pre.filter (·.isTag "input")

/-- The fields produced by `parse_form`'s `<input>` loop. -/
def inputFieldsOf (scope : NodeList) (rootTag : String) : List FormField :=
  (inputsIn scope).foldl (processInput scope rootTag) []

/-- `FormParser.parse_form` on a re-parsed region: locate the first
`<form>` element (falling back to the whole soup), resolve the form id and
question text, then run the input, textarea and select loops in that
order. -/
def parse_form (roots : NodeList) : FormData :=
  { form_id :=
      match findFormCtx roots with
      | some (f, _, _) => (f.getAttr "id").getD ""
      | none => form_html_hash roots,
    fields :=
      inputFieldsOf (parseScope roots) (parseRootTag roots)
        ++ textareaFields (parseScope roots) (parseRootTag roots)
        ++ selectFields (parseScope roots) (parseRootTag roots),
    question_text := some (extract_question_text
      (match findFormCtx roots with
       | some (f, anc, prevs) => ⟨some f, f.children, anc, prevs, roots⟩
       | none => ⟨none, roots, [], [], roots⟩)) }

/-- Whether a node is one of the input-bearing elements
(`div.find(['input', 'textarea', 'select'])`). -/
def isInputLike (n : Node) : Bool :=
  n.isTag "input" || n.isTag "textarea" || n.isTag "select"

/-- The region associated to a located `<form>`: its nearest ancestor
`<div>` when one exists, else the form element itself. -/
def regionOf (f : Node) (anc : List Node) : Node :=
  (anc.find? (·.isTag "div")).getD f

/-- `FormParser.extract_forms`: the four-tier locator cascade; each entry
pairs an identifier with the region subtree that the source serializes and
re-parses (serialization with `html.parser` round-trips, so the subtree is
carried directly). -/
def extract_forms (roots : NodeList) : List (String × Node) :=
  let formsCtx := ctxWalk (·.isTag "form") [] roots
  let tier1 := formsCtx.filterMap fun m =>
    match m.1.getAttr "id" with
    | some fid => if fid ≠ "" then some (fid, regionOf m.1 m.2.1) else none
    | none => none
  if !tier1.isEmpty then tier1 else
  let tier2 := formsCtx.enum.map fun m => (s!"form-{m.1 + 1}", regionOf m.2.1 m.2.2.1)
  if !tier2.isEmpty then tier2 else
  let formLikeDivs := roots.pre.filter fun n =>
    n.isTag "div" && n.classPred (fun c =>
      match c with
      | none => false
      | some s => s ≠ "" && (containsSub (pyLower s) "form"
          || containsSub (pyLower s) "input" || containsSub (pyLower s) "question"))
  let tier3 := formLikeDivs.enum.filterMap fun m =>
    if m.2.descendants.any isInputLike then
      some (s!"synthetic-form-{m.1 + 1}", m.2)
    else none
  if !tier3.isEmpty then tier3 else
  (roots.pre.filter (·.isTag "div")).enum.filterMap fun m =>
    if m.2.descendants.any isInputLike then
      some (s!"div-form-{m.1 + 1}", m.2)
    else none

end FormParser

namespace Slide

/-- Python's `text.split('?')` on the character list: the segments between
occurrences of the separator, with leading/trailing empty segments kept. -/
def splitChars (sep : Char) : List Char → List (List Char)
  | [] => [[]]
  | c :: rest =>
      match splitChars sep rest with
      | [] => [[]]
      | r :: rs => if c = sep then [] :: r :: rs else (c :: r) :: rs

/-- `text.split('?')` as strings. -/
def splitQ (s : String) : List String :=
  (splitChars (Char.ofNat 63) s.data).map fun l => String.mk l

/-- The first heuristic of `Slide.find_potential_questions`: for every text
node containing `?`, every `?`-terminated segment whose stripped form is
longer than 10 characters, appended without any duplicate check. -/
def qmarkCandidates (roots : NodeList) : List String :=
  (textsUnder roots).foldl (fun acc t =>
    if containsSub t "?" then
      acc ++ ((splitQ t).dropLast.filterMap fun p =>
        let q := pyStrip (p ++ "?")
        if q.length > 10 then some q else none)
    else acc) []

/-- `Slide.find_potential_questions`: the `?`-segment heuristic, then
`p`/`h1`..`h6` texts of stripped length strictly between 10 and 500 (added
only when not already present), then text nodes containing a German
interrogative word with raw length strictly between 10 and 500 (their
stripped form added only when not already present). -/
def find_potential_questions (roots : NodeList) : List String :=
  let step2 := ((roots.pre).filter fun n =>
      ["p", "h1", "h2", "h3", "h4", "h5", "h6"].any (n.isTag ·)).foldl
    (fun acc e =>
      let t := e.getTextStrip
      if t ≠ "" && 10 < t.length && t.length < 500 then
        if t ∈ acc then acc else acc ++ [t]
      else acc)
    (qmarkCandidates roots)
  (textsUnder roots).foldl (fun acc s =>
    if germanQuestionWords.any (containsSub (pyLower s) ·)
        && 10 < s.length && s.length < 500 then
      if pyStrip s ∈ acc then acc else acc ++ [pyStrip s]
    else acc) step2

/-- The loop body of `Slide.get_forms`: parse one located region, skip it
when parsing fails, otherwise prefer the locator-supplied id over an empty
or hash-derived one and append the result. -/
def getFormsStep {α : Type} (parse : α → Except String FormData)
    (acc : List FormData) (t : String × α) : List FormData :=
  match parse t.2 with
  | .error _ => acc
  | .ok fd =>
      let fd2 := if fd.form_id = "" || "synthetic-".data.isPrefixOf fd.form_id.data then
          { fd with form_id := t.1 }
        else fd
      acc ++ [fd2]

/-- The loop of `Slide.get_forms` over the located `(id, region)` pairs.
The source's `parse_form` can raise `FormParsingError`; the possibility of
failure is abstracted as an `Except`-valued parse argument. -/
def get_forms_loop {α : Type} (parse : α → Except String FormData)
    (tuples : List (String × α)) : List FormData :=
  tuples.foldl (getFormsStep parse) []

end Slide

/-- The C9 counterexample form: two fields sharing the name `a`. -/
def c9fd : FormData :=
  { form_id := "f",
    fields := [{ name := "a", field_type := .TEXT, value := some "1" },
               { name := "a", field_type := .TEXT, value := some "2" }] }

/-- The C8 witness parse function: fails exactly on the region `bad`. -/
def c8parse : String → Except String FormData :=
  fun s => if s = "bad" then .error "boom" else .ok { form_id := "r" }

/-- The C7 witness form: one text field named `a`. -/
def c7fd : FormData :=
  { form_id := "f", fields := [{ name := "a", field_type := .TEXT }] }

/-- The tag name of an element (empty for text nodes). -/
def Node.tagName : Node → String
  | .elem t _ _ => t
  | .text _ => ""

/-- The scenario region of C3: `<form id="f1"><input name="a" required></form>`. -/
def c3form : Node :=
  .elem "form" [("id", "f1")]
    (.cons (.elem "input" [("name", "a"), ("required", "")] .nil) .nil)

/-- The C3 fragment: the form with no surrounding text. -/
def c3region : NodeList := .cons c3form .nil

/-- The C1 region: a form whose `<textarea>` precedes its `<input>`. -/
def c1region : NodeList :=
  .cons (.elem "form" []
    (.cons (.elem "textarea" [("name", "t")] .nil)
      (.cons (.elem "input" [("name", "a")] .nil) .nil))) .nil

/-- The C2 region: two text inputs sharing one name. -/
def c2region : NodeList :=
  .cons (.elem "form" []
    (.cons (.elem "input" [("name", "a")] .nil)
      (.cons (.elem "input" [("name", "a")] .nil) .nil))) .nil

/-- The C5 fragment: a bare `<input>` with no `<form>` and no `<div>`. -/
def c5region : NodeList := .cons (.elem "input" [("name", "x")] .nil) .nil

/-- The C6 slide content: one text node repeating a question. -/
def c6region : NodeList :=
  .cons (.text "Wie geht es dir denn? Wie geht es dir denn?") .nil

/-- Whether a field kind is a grouped (radio/checkbox) kind. -/
def FormFieldType.isChoice : FormFieldType → Bool
  | .Radio => true
  | .CHECKBOX => true
  | _ => false

/-- The C4 witness region: a two-element radio group named `g`. -/
def c4region : NodeList :=
  .cons (.elem "form" []
    (.cons (.elem "input" [("type", "radio"), ("name", "g"), ("value", "1")] .nil)
      (.cons (.elem "input" [("type", "radio"), ("name", "g"), ("value", "2")] .nil)
        .nil))) .nil

namespace FormParser

/-- The `(lowered type, name attribute)` key of an `<input>` element,
which alone determines how the input loop changes the name sequence. -/
def inputKey (inp : Node) : String × Option String :=
  (pyLower ((inp.getAttr "type").getD "text"), inp.getAttr "name")

/-- The name-level recurrence of the input loop: text-like inputs append
their name, radio/checkbox inputs append it only when absent, everything
else leaves the sequence unchanged. -/
def fieldNameStep (acc : List String) : String × Option String → List String
  | (_, none) => acc
  | (ty, some n) =>
      if n = "" then acc
      else if textInputTypes.contains ty then acc ++ [n]
      else if ty = "radio" || ty = "checkbox" then
        if acc.any (fun m => m == n) then acc else acc ++ [n]
      else acc

/-- The non-empty `name` attributes of the elements with a given tag, in
document order. -/
def namedNames (tag : String) (scope : NodeList) : List String :=
  (scope.pre.filter (·.isTag tag)).filterMap fun t =>
    match t.getAttr "name" with
    | some n => if n = "" then none else some n
    | none => none

/-- The `<input>` elements of a scope carrying the given name, in document
order. -/
def inputsNamed (scope : NodeList) (n : String) : List Node :=
  (inputsIn scope).filter (fun i => i.getAttr "name" == some n)

/-- The effective (lowered, defaulted) `type` of an `<input>`. -/
def inputTypeOf (i : Node) : String :=
  pyLower ((i.getAttr "type").getD "text")

/-- The fresh Radio/CHECKBOX field that the input loop creates for the
first input of a group. -/
def mkChoiceField (scope : NodeList) (rootTag n : String) (i : Node)
    (lab : String) : FormField :=
  { name := n,
    field_type := if pyLower ((i.getAttr "type").getD "text") = "radio"
      then FormFieldType.Radio else FormFieldType.CHECKBOX,
    label := find_label scope rootTag n (i.getAttr "id") none,
    options := [((i.getAttr "value").getD "", lab)],
    value := none,
    required := (i.getAttr "required").isSome }

end FormParser

theorem alookup_map_replace_ne (d : List (String × String)) (k v k' : String)
    (h : k' ≠ k) :
    alookup k' (d.map fun p => if p.1 = k then (k, v) else p) = alookup k' d := by
  induction d with
  | nil => rfl
  | cons p d ih =>
      obtain ⟨a, b⟩ := p
      rw [List.map_cons]
      by_cases hp : a = k
      · subst hp
        rw [show (if (a, b).1 = a then (a, v) else (a, b)) = (a, v) by simp]
        simp [alookup, h, ih]
      · rw [show (if (a, b).1 = k then (k, v) else (a, b)) = (a, b) by simp [hp]]
        by_cases hq : k' = a <;> simp [alookup, hq, ih]

theorem alookup_map_replace_eq (d : List (String × String)) (k v : String)
    (hk : d.any (fun p => p.1 == k) = true) :
    alookup k (d.map fun p => if p.1 = k then (k, v) else p) = some v := by
  induction d with
  | nil => simp at hk
  | cons p d ih =>
      obtain ⟨a, b⟩ := p
      rw [List.map_cons]
      by_cases hp : a = k
      · subst hp
        rw [show (if (a, b).1 = a then (a, v) else (a, b)) = (a, v) by simp]
        simp [alookup]
      · rw [show (if (a, b).1 = k then (k, v) else (a, b)) = (a, b) by simp [hp]]
        simp only [List.any_cons, Bool.or_eq_true, beq_iff_eq] at hk
        rcases hk with hk | hk
        · exact absurd hk hp
        · simp [alookup, Ne.symm hp, ih hk]

theorem alookup_append_single (d : List (String × String)) (k v k' : String) :
    alookup k' (d ++ [(k, v)]) =
      ((alookup k' d).orElse fun _ => if k' = k then some v else none) := by
  induction d with
  | nil => by_cases h : k' = k <;> simp [alookup, h, Option.orElse]
  | cons p d ih =>
      obtain ⟨a, b⟩ := p
      by_cases hp : k' = a <;> simp [alookup, hp, ih, Option.orElse]

theorem alookup_not_mem (d : List (String × String)) (k : String)
    (hk : d.any (fun p => p.1 == k) = false) :
    alookup k d = none := by
  induction d with
  | nil => rfl
  | cons p d ih =>
      obtain ⟨a, b⟩ := p
      simp only [List.any_cons, Bool.or_eq_false_iff, beq_eq_false_iff_ne] at hk
      simp [alookup, Ne.symm hk.1, ih hk.2]

/-- Lookup after a `dictInsert`: the inserted key maps to the new value,
every other key is untouched. -/
theorem alookup_dictInsert (d : List (String × String)) (k v k' : String) :
    alookup k' (dictInsert d k v) = if k' = k then some v else alookup k' d := by
  unfold dictInsert
  by_cases hk : d.any (fun p => p.1 == k) = true
  · simp only [hk, if_true]
    by_cases h : k' = k
    · subst h; simp [alookup_map_replace_eq d k' v hk]
    · simp [alookup_map_replace_ne d k v k' h, h]
  · simp only [Bool.not_eq_true] at hk
    rw [if_neg (by simp [hk]), alookup_append_single]
    by_cases h : k' = k
    · subst h; simp [alookup_not_mem d k' hk, Option.orElse]
    · cases hd : alookup k' d <;> simp [h, hd, Option.orElse]

/-- Lookup in the dict built by the `to_dict` fold: the last field with the
given name that carries a value wins; with no such field the initial dict
decides. -/
theorem alookup_foldl_dictStep (fs : List FormField) (d : List (String × String))
    (k : String) :
    alookup k (fs.foldl dictStep d) =
      match fs.reverse.find? (fun f => f.name == k && f.value.isSome) with
      | some f => f.value
      | none => alookup k d := by
  induction fs generalizing d with
  | nil => rfl
  | cons f fs ih =>
      rw [List.foldl_cons, ih (dictStep d f), List.reverse_cons]
      cases hfind : fs.reverse.find? (fun f => f.name == k && f.value.isSome) with
      | some g => rw [List.find?_append, hfind]; rfl
      | none =>
          rw [List.find?_append, hfind]
          simp only [Option.none_orElse]
          by_cases hpass : (f.name == k && f.value.isSome) = true
          · have hname : f.name = k := by
              simp only [Bool.and_eq_true, beq_iff_eq] at hpass; exact hpass.1
            obtain ⟨v, hv⟩ : ∃ v, f.value = some v := by
              simp only [Bool.and_eq_true, Option.isSome_iff_exists] at hpass
              exact hpass.2
            simp [List.find?, hpass, dictStep, hv, alookup_dictInsert, hname]
          · simp only [List.find?, hpass]
            cases hval : f.value with
            | none => simp [dictStep, hval]
            | some v =>
                have hname : ¬ k = f.name := by
                  intro h
                  exact hpass (by simp [h.symm, hval])
                simp [dictStep, hval, alookup_dictInsert, hname]

/-- C9 counterexample: in a `FormData` with two fields named `"a"` holding
values `"1"` and `"2"`, `to_dict` does not map each field's name to that
field's value — the first field's value `"1"` is overwritten by `"2"`. -/
theorem C9_counterexample :
    ¬ (∀ f ∈ c9fd.fields, f.value.isSome = true →
        alookup f.name c9fd.to_dict = f.value) := by decide

/-- C9 (amended): `to_dict`'s keys are exactly the names of fields whose
value is not `None`, and each key maps to the value of the last such field
with that name; valueless fields contribute nothing. -/
theorem C9_to_dict_lookup (fd : FormData) (k : String) :
    alookup k fd.to_dict =
      match fd.fields.reverse.find? (fun f => f.name == k && f.value.isSome) with
      | some f => f.value
      | none => none := by
  have h := alookup_foldl_dictStep fd.fields [] k
  simpa [FormData.to_dict, alookup] using h

/-- C7: values applied by `from_dict` and read back by `to_dict` agree with
the submission mapping on every key that is both a field name and a key of
the mapping. -/
theorem C7_round_trip (fd : FormData) (data : List (String × String)) (k v : String)
    (hk : k ∈ fd.fields.map FormField.name) (hv : alookup k data = some v) :
    alookup k (fd.from_dict data).to_dict = alookup k data := by
  have hupd : ∀ g ∈ (fd.from_dict data).fields, g.name = k → g.value = some v := by
    intro g hg hgk
    simp only [FormData.from_dict, List.mem_map] at hg
    obtain ⟨f, _, rfl⟩ := hg
    have hn : (updField data f).name = f.name := by
      unfold updField; cases alookup f.name data <;> rfl
    rw [hn] at hgk
    simp [updField, hgk, hv]
  have hfind : ((fd.from_dict data).fields.reverse.find?
      (fun f => f.name == k && f.value.isSome)).isSome := by
    rw [List.find?_isSome]
    simp only [List.mem_map, FormData.from_dict] at hk ⊢
    obtain ⟨f, hf, hfname⟩ := hk
    refine ⟨updField data f, ?_, ?_⟩
    · rw [List.mem_reverse]
      exact List.mem_map_of_mem (updField data) hf
    · have hn : (updField data f).name = f.name := by
        unfold updField; cases alookup f.name data <;> rfl
      have hval : (updField data f).value = some v := by
        apply hupd
        · exact List.mem_map_of_mem (updField data) hf
        · rw [hn, hfname]
      simp [hn, hfname, hval]
  obtain ⟨g, hg⟩ := Option.isSome_iff_exists.mp hfind
  have hmem := List.mem_of_find?_eq_some hg
  have hp := List.find?_some hg
  have hgk : g.name = k := by
    simp only [Bool.and_eq_true, beq_iff_eq] at hp; exact hp.1
  have hgv : g.value = some v := by
    apply hupd g (List.mem_reverse.mp hmem) hgk
  rw [hv, show (fd.from_dict data).to_dict
      = (fd.from_dict data).fields.foldl dictStep [] from rfl,
    alookup_foldl_dictStep, hg]
  exact hgv

/-- C10: `from_dict` changes only the `value` of fields whose name is a key
of the mapping; every other field is entirely unchanged and names, types,
labels, options, required flags, the form id and the question text are all
preserved. -/
theorem C10_from_dict_frame (fd : FormData) (data : List (String × String)) :
    (fd.from_dict data).form_id = fd.form_id ∧
    (fd.from_dict data).question_text = fd.question_text ∧
    List.Forall₂ (fun g f =>
        g.name = f.name ∧ g.field_type = f.field_type ∧ g.label = f.label ∧
        g.options = f.options ∧ g.required = f.required ∧
        (alookup f.name data = none → g = f))
      (fd.from_dict data).fields fd.fields := by
  refine ⟨rfl, rfl, ?_⟩
  simp only [FormData.from_dict]
  rw [List.forall₂_map_left_iff, List.forall₂_same]
  intro f _
  unfold updField
  cases h : alookup f.name data with
  | some v => simp [h]
  | none => simp [h]

/-- C8: in the `get_forms` loop, a region whose parse fails is skipped and
the results for all remaining regions are still produced: the run over
`pre ++ [failing] ++ post` equals the run over `pre ++ post`. -/
theorem C8_partial_result {α : Type} (parse : α → Except String FormData)
    (pre post : List (String × α)) (x : String × α) (e : String)
    (hfail : parse x.2 = .error e) :
    Slide.get_forms_loop parse (pre ++ x :: post) =
      Slide.get_forms_loop parse (pre ++ post) := by
  unfold Slide.get_forms_loop
  rw [List.foldl_append, List.foldl_append, List.foldl_cons]
  congr 1
  simp [Slide.getFormsStep, hfail]

/-- Witness for C8: a concrete three-region run in which the middle parse
fails; the failing region is skipped and both other regions survive. -/
theorem C8_partial_result_witness :
    c8parse "bad" = .error "boom" ∧
    Slide.get_forms_loop c8parse ([("a", "x")] ++ ("b", "bad") :: [("c", "y")]) =
      Slide.get_forms_loop c8parse ([("a", "x")] ++ [("c", "y")]) :=
  ⟨rfl, C8_partial_result c8parse [("a", "x")] [("c", "y")] ("b", "bad") "boom" rfl⟩

/-- Witness for C7: a one-field form and the mapping `{"a": "42"}`
round-trip the value at key `"a"`. -/
theorem C7_round_trip_witness :
    "a" ∈ c7fd.fields.map FormField.name ∧ alookup "a" [("a", "42")] = some "42" ∧
    alookup "a" (c7fd.from_dict [("a", "42")]).to_dict = alookup "a" [("a", "42")] :=
  ⟨by decide, by decide, C7_round_trip c7fd [("a", "42")] "a" "42" (by decide) (by decide)⟩

/-- C3 counterexample: on `<form id="f1"><input name="a" required></form>`
the pipeline locates exactly one region, but `parse_form`'s question text
is `"Exercise f1"` — the cascade's final `Exercise {id}` fallback — and
not the empty string the claim demands. -/
theorem C3_counterexample :
    FormParser.extract_forms c3region = [("f1", c3form)] ∧
    (FormParser.parse_form c3region).question_text = some "Exercise f1" ∧
    (FormParser.parse_form c3region).question_text ≠ some "" := by decide

/-- C3 (amended): the pipeline on `<form id="f1"><input name="a" required></form>`
yields exactly one located region whose parse has form id `"f1"`, exactly
one TEXT field named `"a"`, required, with no label and no value, and
question text `"Exercise f1"` from the final id fallback. -/
theorem C3_amended_scenario :
    FormParser.extract_forms c3region = [("f1", c3form)] ∧
    FormParser.parse_form c3region =
      { form_id := "f1",
        fields := [{ name := "a", field_type := .TEXT, label := none, options := [],
                     value := none, required := true }],
        question_text := some "Exercise f1" } := by decide

/-- C1 counterexample: in a region whose `<textarea>` precedes its
`<input>` in the markup (document order: form, textarea, input), the
parsed fields list the input's field first — the fields sequence is not in
first-seen document order of the source elements. -/
theorem C1_counterexample :
    c1region.pre.map Node.tagName = ["form", "textarea", "input"] ∧
    (FormParser.parse_form c1region).fields.map (fun f => (f.name, f.field_type)) =
      [("a", .TEXT), ("t", .TEXTAREA)] := by decide

/-- C2 counterexample: two text `<input>` elements sharing the name `"a"`
produce two distinct entries with the same name — `name` is not unique
within `FormData.fields`. -/
theorem C2_counterexample :
    (FormParser.parse_form c2region).fields.map FormField.name = ["a", "a"] ∧
    ¬ ((FormParser.parse_form c2region).fields.map FormField.name).Nodup := by
  have h : (FormParser.parse_form c2region).fields.map FormField.name = ["a", "a"] := by
    decide
  refine ⟨h, ?_⟩
  rw [h]
  intro hn
  exact (List.nodup_cons.mp hn).1 (List.mem_cons_self _ _)

/-- C5 counterexample: a fragment consisting of a bare `<input>` (no
`<form>`, no `<div>` ancestor) contains an input-bearing element, yet
`extract_forms` returns the empty sequence. -/
theorem C5_counterexample :
    c5region.pre.any FormParser.isInputLike = true ∧
    FormParser.extract_forms c5region = [] := by decide

/-- C6 counterexample: a slide whose text repeats the same
question-mark-terminated segment twice yields that segment twice — the
first heuristic appends without any de-duplication check, so the result is
not duplicate-free. -/
theorem C6_counterexample :
    Slide.find_potential_questions c6region =
      ["Wie geht es dir denn?", "Wie geht es dir denn?",
       "Wie geht es dir denn? Wie geht es dir denn?"] ∧
    ¬ (Slide.find_potential_questions c6region).Nodup := by
  have h : Slide.find_potential_questions c6region =
      ["Wie geht es dir denn?", "Wie geht es dir denn?",
       "Wie geht es dir denn? Wie geht es dir denn?"] := by decide
  refine ⟨h, ?_⟩
  rw [h]
  intro hn
  exact (List.nodup_cons.mp hn).1 (List.mem_cons_self _ _)

/-- A fold whose step either leaves the accumulator unchanged or appends
one element not already present produces the initial list followed by a
duplicate-free suffix disjoint from it. -/
theorem foldl_dedup_suffix {β : Type} (step : List String → β → List String)
    (hstep : ∀ acc x, step acc x = acc ∨ ∃ s, s ∉ acc ∧ step acc x = acc ++ [s]) :
    ∀ (l : List β) (acc : List String),
      ∃ B, l.foldl step acc = acc ++ B ∧ B.Nodup ∧ ∀ b ∈ B, b ∉ acc
  | [], acc => ⟨[], by simp⟩
  | x :: l, acc => by
      rcases hstep acc x with h | ⟨s, hs, h⟩
      · obtain ⟨B, hB⟩ := foldl_dedup_suffix step hstep l acc
        exact ⟨B, by simpa [h] using hB⟩
      · obtain ⟨B, h1, h2, h3⟩ := foldl_dedup_suffix step hstep l (acc ++ [s])
        refine ⟨s :: B, ?_, ?_, ?_⟩
        · simp only [List.foldl_cons, h, h1, List.append_assoc, List.singleton_append]
        · exact List.nodup_cons.mpr ⟨fun hmem => (h3 _ hmem) (by simp), h2⟩
        · intro b hb
          rcases List.mem_cons.mp hb with rfl | hb
          · exact hs
          · intro hbacc
            exact (h3 b hb) (by simp [hbacc])

/-- C6 (amended): `find_potential_questions` is the `?`-segment heuristic's
output (appended without de-duplication, so duplicates can occur inside
it) followed by the contributions of the element-text and
interrogative-word heuristics, which are duplicate-free and distinct from
every earlier entry. -/
theorem C6_amended (roots : NodeList) :
    ∃ B, Slide.find_potential_questions roots = Slide.qmarkCandidates roots ++ B ∧
      B.Nodup ∧ ∀ b ∈ B, b ∉ Slide.qmarkCandidates roots := by
  unfold Slide.find_potential_questions
  have hstep2 : ∀ (acc : List String) (e : Node),
      (fun (acc : List String) (e : Node) =>
        let t := e.getTextStrip
        if t ≠ "" && 10 < t.length && t.length < 500 then
          if t ∈ acc then acc else acc ++ [t]
        else acc) acc e = acc ∨
      ∃ s, s ∉ acc ∧ (fun (acc : List String) (e : Node) =>
        let t := e.getTextStrip
        if t ≠ "" && 10 < t.length && t.length < 500 then
          if t ∈ acc then acc else acc ++ [t]
        else acc) acc e = acc ++ [s] := by
    intro acc e
    dsimp only
    by_cases hc : (e.getTextStrip ≠ "" && 10 < e.getTextStrip.length
        && e.getTextStrip.length < 500) = true
    · by_cases hm : e.getTextStrip ∈ acc
      · left; rw [if_pos hc, if_pos hm]
      · right; exact ⟨e.getTextStrip, hm, by rw [if_pos hc, if_neg hm]⟩
    · left; rw [if_neg hc]
  have hstep3 : ∀ (acc : List String) (s : String),
      (fun (acc : List String) (s : String) =>
        if germanQuestionWords.any (containsSub (pyLower s) ·)
            && 10 < s.length && s.length < 500 then
          if pyStrip s ∈ acc then acc else acc ++ [pyStrip s]
        else acc) acc s = acc ∨
      ∃ t, t ∉ acc ∧ (fun (acc : List String) (s : String) =>
        if germanQuestionWords.any (containsSub (pyLower s) ·)
            && 10 < s.length && s.length < 500 then
          if pyStrip s ∈ acc then acc else acc ++ [pyStrip s]
        else acc) acc s = acc ++ [t] := by
    intro acc s
    dsimp only
    by_cases hc : (germanQuestionWords.any (containsSub (pyLower s) ·)
        && 10 < s.length && s.length < 500) = true
    · by_cases hm : pyStrip s ∈ acc
      · left; rw [if_pos hc, if_pos hm]
      · right; exact ⟨pyStrip s, hm, by rw [if_pos hc, if_neg hm]⟩
    · left; rw [if_neg hc]
  obtain ⟨B1, hB1, hN1, hD1⟩ := foldl_dedup_suffix _ hstep2
    ((roots.pre).filter fun n => ["p", "h1", "h2", "h3", "h4", "h5", "h6"].any (n.isTag ·))
    (Slide.qmarkCandidates roots)
  rw [hB1]
  obtain ⟨B2, hB2, hN2, hD2⟩ := foldl_dedup_suffix _ hstep3
    (textsUnder roots) (Slide.qmarkCandidates roots ++ B1)
  rw [hB2]
  refine ⟨B1 ++ B2, by rw [List.append_assoc], ?_, ?_⟩
  · rw [List.nodup_append]
    refine ⟨hN1, hN2, ?_⟩
    intro a ha hb
    exact (hD2 a hb) (by simp [ha])
  · intro b hb
    rcases List.mem_append.mp hb with hb | hb
    · exact hD1 b hb
    · intro hq
      exact (hD2 b hb) (by simp [hq])

/-- `isElem` absorbs into `isTag`. -/
theorem Node.isElem_and_isTag (n : Node) (t : String) :
    (n.isElem && n.isTag t) = n.isTag t := by
  cases n <;> simp [Node.isElem, Node.isTag]

mutual

theorem ctxWalkN_fst (p : Node → Bool) :
    ∀ (anc : List Node) (sibs : NodeList) (n : Node),
    (Node.ctxWalkN p anc sibs n).map (fun m => m.1) =
      n.pre.filter (fun x => x.isElem && p x)
  | anc, sibs, .text s => by
      simp [Node.ctxWalkN, Node.pre, Node.isElem]
  | anc, sibs, .elem t a c => by
      by_cases hp : p (.elem t a c) = true
      · simp [Node.ctxWalkN, Node.pre, hp, Node.isElem,
          ctxWalkL_fst p (Node.elem t a c :: anc) c]
      · simp [Node.ctxWalkN, Node.pre, hp, Node.isElem,
          ctxWalkL_fst p (Node.elem t a c :: anc) c]

theorem ctxWalkL_fst (p : Node → Bool) :
    ∀ (anc : List Node) (ns : NodeList),
    (NodeList.ctxWalkL p anc ns).map (fun m => m.1) =
      ns.pre.filter (fun x => x.isElem && p x)
  | anc, .nil => by simp [NodeList.ctxWalkL, NodeList.pre]
  | anc, .cons n ns => by
      simp [NodeList.ctxWalkL, NodeList.pre, List.filter_append,
        ctxWalkN_fst p anc ns n, ctxWalkL_fst p anc ns]

end

/-- The context walk finds a match exactly when the forest's preorder
holds a node satisfying the predicate (text nodes never match the tag
predicates used). -/
theorem ctxWalk_eq_nil_iff (p : Node → Bool) (anc : List Node) (ns : NodeList)
    (hp : ∀ x, p x = true → x.isElem = true) :
    ctxWalk p anc ns = [] ↔ ∀ x ∈ ns.pre, ¬ p x = true := by
  constructor
  · intro h x hx hpx
    have hm := ctxWalkL_fst p anc ns
    rw [show NodeList.ctxWalkL p anc ns = ctxWalk p anc ns from rfl, h] at hm
    have : x ∈ ns.pre.filter (fun x => x.isElem && p x) := by
      rw [List.mem_filter]
      exact ⟨hx, by simp [hp x hpx, hpx]⟩
    rw [← hm] at this
    simp at this
  · intro h
    have hm := ctxWalkL_fst p anc ns
    rw [show NodeList.ctxWalkL p anc ns = ctxWalk p anc ns from rfl] at hm
    have hf : ns.pre.filter (fun x => x.isElem && p x) = [] := by
      rw [List.filter_eq_nil_iff]
      intro x hx
      simp only [Bool.and_eq_true, not_and]
      intro _ hpx
      exact h x hx hpx
    rw [hf] at hm
    exact List.map_eq_nil_iff.mp hm

theorem filterMap_if_eq_nil {γ β : Type} (Q : γ → Bool) (f : γ → β) :
    ∀ l : List γ,
    (l.filterMap fun m => if Q m then some (f m) else none) = [] ↔ ∀ m ∈ l, ¬ Q m = true
  | [] => by simp
  | x :: l => by
      simp only [List.filterMap_cons]
      by_cases hq : Q x = true
      · simp [hq]
      · simp [hq, filterMap_if_eq_nil Q f l]

theorem enum_eq_nil_iff {α : Type} (l : List α) : l.enum = [] ↔ l = [] := by
  cases l <;> simp [List.enum]

/-- Quantifying a predicate of the element over `enum` members is
quantifying it over the list. -/
theorem forall_enum_snd {α : Type} (P : α → Bool) (l : List α) :
    (∀ m ∈ l.enum, ¬ P m.2 = true) ↔ ∀ a ∈ l, ¬ P a = true := by
  constructor
  · intro h a ha
    have : a ∈ l.enum.map Prod.snd := by rw [List.enum_map_snd]; exact ha
    obtain ⟨m, hm, rfl⟩ := List.mem_map.mp this
    exact h m hm
  · intro h m hm
    apply h
    rw [← List.enum_map_snd l]
    exact List.mem_map_of_mem Prod.snd hm

theorem enum_filterMap_if_eq_nil {α β : Type} (P : α → Bool) (f : Nat × α → β)
    (l : List α) :
    (l.enum.filterMap fun m => if P m.2 then some (f m) else none) = []
      ↔ ∀ a ∈ l, ¬ P a = true := by
  rw [filterMap_if_eq_nil (fun m => P m.2) f l.enum]
  exact forall_enum_snd P l

/-- C5 (amended): `extract_forms` (modelled total: BeautifulSoup's lenient
parser does not raise) returns a non-empty sequence exactly when the
fragment holds a `<form>` element or a `<div>` containing an
`<input>`/`<textarea>`/`<select>`; in particular a bare input-bearing
element outside any `<div>` yields the empty sequence, refuting the claim
as stated. -/
theorem C5_amended (roots : NodeList) :
    FormParser.extract_forms roots ≠ [] ↔
      (roots.pre.any (·.isTag "form") = true ∨
       roots.pre.any (fun d => d.isTag "div"
          && d.descendants.any FormParser.isInputLike) = true) := by
  have hform : ∀ x : Node, (·.isTag "form") x = true → x.isElem = true := by
    intro x hx; cases x
    · rfl
    · simp [Node.isTag] at hx
  have hanyform : (ctxWalk (·.isTag "form") [] roots = []) ↔
      ¬ roots.pre.any (·.isTag "form") = true := by
    rw [ctxWalk_eq_nil_iff (·.isTag "form") [] roots hform, List.any_eq_true]
    push_neg
    simp
  have h4iff := (filterMap_if_eq_nil
    (fun m : Nat × Node => m.2.descendants.any FormParser.isInputLike)
    (fun m => (s!"div-form-{m.1 + 1}", m.2))
    (List.filter (fun x => Node.isTag "div" x) roots.pre).enum).trans
    (forall_enum_snd (fun d : Node => d.descendants.any FormParser.isInputLike)
      (List.filter (fun x => Node.isTag "div" x) roots.pre))
  have h3iff := (filterMap_if_eq_nil
    (fun m : Nat × Node => m.2.descendants.any FormParser.isInputLike)
    (fun m => (s!"synthetic-form-{m.1 + 1}", m.2))
    (List.filter (fun n => Node.isTag "div" n && Node.classPred (fun c =>
      match c with
      | none => false
      | some s => s ≠ "" && (containsSub (pyLower s) "form"
          || containsSub (pyLower s) "input"
          || containsSub (pyLower s) "question")) n) roots.pre).enum).trans
    (forall_enum_snd (fun d : Node => d.descendants.any FormParser.isInputLike)
      (List.filter (fun n => Node.isTag "div" n && Node.classPred (fun c =>
        match c with
        | none => false
        | some s => s ≠ "" && (containsSub (pyLower s) "form"
            || containsSub (pyLower s) "input"
            || containsSub (pyLower s) "question")) n) roots.pre))
  unfold FormParser.extract_forms
  by_cases hF : ctxWalk (fun x => Node.isTag "form" x) [] roots = []
  · have hnoform : ¬ (roots.pre.any (·.isTag "form")) = true := hanyform.mp hF
    rw [hF]
    simp only [List.filterMap_nil, List.enum_nil, List.map_nil, List.isEmpty_nil,
      Bool.not_true, Bool.false_eq_true, if_false, hnoform, false_or]
    by_cases hD : (roots.pre.any (fun d => d.isTag "div"
        && d.descendants.any FormParser.isInputLike)) = true
    · simp only [hD, iff_true]
      split_ifs with h3
      · intro hnil
        rw [hnil] at h3
        simp at h3
      · rw [Ne, h4iff]
        intro hall
        rw [List.any_eq_true] at hD
        obtain ⟨x, hx, hxp⟩ := hD
        simp only [Bool.and_eq_true] at hxp
        exact hall x (List.mem_filter.mpr ⟨hx, hxp.1⟩) hxp.2
    · simp only [hD, iff_false, not_not]
      have hall : ∀ d ∈ roots.pre.filter (fun x => Node.isTag "div" x),
          ¬ (d.descendants.any FormParser.isInputLike) = true := by
        intro d hd hdany
        apply hD
        rw [List.any_eq_true]
        obtain ⟨hd1, hd2⟩ := List.mem_filter.mp hd
        exact ⟨d, hd1, by simp [hd2, hdany]⟩
      have h4 := h4iff.mpr hall
      have h3 := h3iff.mpr (by
        intro d hd
        obtain ⟨hd1, hd2⟩ := List.mem_filter.mp hd
        simp only [Bool.and_eq_true] at hd2
        exact hall d (List.mem_filter.mpr ⟨hd1, hd2.1⟩))
      rw [h3, h4]
      simp
  · have hyesform : (roots.pre.any (·.isTag "form")) = true := by
      by_contra h
      exact hF (hanyform.mpr h)
    simp only [hyesform, true_or, iff_true]
    have h2ne : (List.map (fun m => (s!"form-{m.1 + 1}",
        FormParser.regionOf m.2.1 m.2.2.1))
        (ctxWalk (fun x => Node.isTag "form" x) [] roots).enum) ≠ [] := by
      rw [Ne, List.map_eq_nil_iff, enum_eq_nil_iff]
      exact hF
    split_ifs with h1 h2
    · intro hnil
      rw [hnil] at h1
      simp at h1
    · exact h2ne
    · cases hb : (List.map (fun m => (s!"form-{m.1 + 1}",
          FormParser.regionOf m.2.1 m.2.2.1))
          (ctxWalk (fun x => Node.isTag "form" x) [] roots).enum).isEmpty
      · exact absurd (by simp [hb]) h2
      · exact absurd (List.isEmpty_iff.mp hb) h2ne
    · cases hb : (List.map (fun m => (s!"form-{m.1 + 1}",
          FormParser.regionOf m.2.1 m.2.2.1))
          (ctxWalk (fun x => Node.isTag "form" x) [] roots).enum).isEmpty
      · exact absurd (by simp [hb]) h2
      · exact absurd (List.isEmpty_iff.mp hb) h2ne

namespace FormParser

/-- `appendOption` only touches options: names and kinds are unchanged. -/
theorem appendOption_nameType (n : String) (opt : String × String) :
    ∀ fs : List FormField,
    (appendOption fs n opt).map (fun f => (f.name, f.field_type)) =
      fs.map (fun f => (f.name, f.field_type))
  | [] => rfl
  | f :: fs => by
      by_cases h : f.name = n
      · simp [appendOption, h]
      · simp [appendOption, h, appendOption_nameType n opt fs]

/-- `appendOption` leaves the name sequence unchanged. -/
theorem appendOption_names (n : String) (opt : String × String)
    (fs : List FormField) :
    (appendOption fs n opt).map FormField.name = fs.map FormField.name := by
  have h := congrArg (List.map Prod.fst) (appendOption_nameType n opt fs)
  simpa [List.map_map, Function.comp] using h

/-- One step of the input loop changes the name sequence exactly as the
name-level recurrence prescribes. -/
theorem processInput_names (scope : NodeList) (rootTag : String)
    (fields : List FormField) (inp : Node) :
    (processInput scope rootTag fields inp).map FormField.name =
      fieldNameStep (fields.map FormField.name) (inputKey inp) := by
  unfold processInput fieldNameStep inputKey
  cases hname : inp.getAttr "name" with
  | none => rfl
  | some n =>
      dsimp only
      by_cases hn : n = ""
      · rw [if_pos hn, if_pos hn]
      · rw [if_neg hn, if_neg hn]
        by_cases ht : textInputTypes.contains (pyLower ((inp.getAttr "type").getD "text")) = true
        · rw [if_pos ht, if_pos ht, List.map_append]
          rfl
        · rw [if_neg ht, if_neg ht]
          by_cases hr : (pyLower ((inp.getAttr "type").getD "text") = "radio"
              || pyLower ((inp.getAttr "type").getD "text") = "checkbox") = true
          · rw [if_pos hr, if_pos hr]
            have hany : ((fields.map FormField.name).any fun m => m == n)
                = fields.any (fun fl => fl.name == n) := by
              induction fields with
              | nil => rfl
              | cons g gs ih => simp [List.any_cons, ih]
            by_cases hm : fields.any (fun fl => fl.name == n) = true
            · rw [if_pos hm, if_pos (hany.trans hm), appendOption_names]
            · rw [if_neg hm, if_neg (fun h => hm (hany.symm.trans h)), List.map_append]
              rfl
          · rw [if_neg hr, if_neg hr]

/-- The whole input loop computes the name-level fold of the inputs'
`(type, name)` keys. -/
theorem inputFold_names (scope : NodeList) (rootTag : String) :
    ∀ (inputs : List Node) (fields : List FormField),
    (inputs.foldl (processInput scope rootTag) fields).map FormField.name =
      (inputs.map inputKey).foldl fieldNameStep (fields.map FormField.name)
  | [], fields => rfl
  | i :: inputs, fields => by
      rw [List.foldl_cons, List.map_cons, List.foldl_cons,
        inputFold_names scope rootTag inputs (processInput scope rootTag fields i),
        processInput_names]

end FormParser

namespace FormParser

/-- Every member of `appendOption`'s result has the kind of some original
member. -/
theorem appendOption_mem_type (n : String) (opt : String × String) :
    ∀ (fs : List FormField), ∀ f ∈ appendOption fs n opt,
      ∃ g ∈ fs, f.field_type = g.field_type
  | [], f, h => absurd h (List.not_mem_nil f)
  | g :: fs, f, h => by
      by_cases hg : g.name = n
      · rw [show appendOption (g :: fs) n opt
            = { g with options := g.options ++ [opt] } :: fs by
            simp [appendOption, hg]] at h
        rcases List.mem_cons.mp h with rfl | hf
        · exact ⟨g, List.mem_cons_self g fs, rfl⟩
        · exact ⟨f, List.mem_cons_of_mem g hf, rfl⟩
      · rw [show appendOption (g :: fs) n opt = g :: appendOption fs n opt by
            simp [appendOption, hg]] at h
        rcases List.mem_cons.mp h with rfl | hf
        · exact ⟨f, List.mem_cons_self _ _, rfl⟩
        · obtain ⟨g2, hg2, ht⟩ := appendOption_mem_type n opt fs f hf
          exact ⟨g2, List.mem_cons_of_mem _ hg2, ht⟩

/-- The input loop only ever holds TEXT, Radio and CHECKBOX fields. -/
theorem inputFold_types (scope : NodeList) (rootTag : String) :
    ∀ (inputs : List Node) (fields : List FormField),
    (∀ f ∈ fields, f.field_type = .TEXT ∨ f.field_type = .Radio
        ∨ f.field_type = .CHECKBOX) →
    ∀ f ∈ inputs.foldl (processInput scope rootTag) fields,
      f.field_type = .TEXT ∨ f.field_type = .Radio ∨ f.field_type = .CHECKBOX
  | [], fields, hinv, f, hf => hinv f hf
  | i :: inputs, fields, hinv, f, hf => by
      refine inputFold_types scope rootTag inputs
        (processInput scope rootTag fields i) ?_ f hf
      intro g hg
      unfold processInput at hg
      rcases hgetn : i.getAttr "name" with _ | n <;> rw [hgetn] at hg
      · exact hinv g hg
      · dsimp only at hg
        by_cases hn : n = ""
        · rw [if_pos hn] at hg
          exact hinv g hg
        · rw [if_neg hn] at hg
          by_cases ht : textInputTypes.contains (pyLower ((i.getAttr "type").getD "text")) = true
          · rw [if_pos ht] at hg
            rcases List.mem_append.mp hg with hg | hg
            · exact hinv g hg
            · rcases List.mem_singleton.mp hg with rfl
              left; rfl
          · rw [if_neg ht] at hg
            by_cases hr : (pyLower ((i.getAttr "type").getD "text") = "radio"
                || pyLower ((i.getAttr "type").getD "text") = "checkbox") = true
            · rw [if_pos hr] at hg
              by_cases hm : fields.any (fun fl => fl.name == n) = true
              · rw [if_pos hm] at hg
                obtain ⟨g2, hg2, htype⟩ := appendOption_mem_type n _ fields g hg
                rw [htype]
                exact hinv g2 hg2
              · rw [if_neg hm] at hg
                rcases List.mem_append.mp hg with hg | hg
                · exact hinv g hg
                · rcases List.mem_singleton.mp hg with rfl
                  by_cases hrad : pyLower ((i.getAttr "type").getD "text") = "radio"
                  · right; left; simp [hrad]
                  · right; right; simp [hrad]
            · rw [if_neg hr] at hg
              exact hinv g hg

end FormParser

namespace FormParser

/-- The textarea loop emits the named textareas' names in document order. -/
theorem textareaFields_names (scope : NodeList) (rootTag : String) :
    (textareaFields scope rootTag).map FormField.name =
      namedNames "textarea" scope := by
  unfold textareaFields namedNames
  rw [List.map_filterMap]
  apply List.filterMap_congr
  intro ta _
  cases ta.getAttr "name" with
  | none => rfl
  | some n => by_cases hn : n = "" <;> simp [hn]

/-- Every field of the textarea loop is a TEXTAREA field. -/
theorem textareaFields_types (scope : NodeList) (rootTag : String) :
    ∀ f ∈ textareaFields scope rootTag, f.field_type = .TEXTAREA := by
  intro f hf
  unfold textareaFields at hf
  obtain ⟨ta, _, hsome⟩ := List.mem_filterMap.mp hf
  rcases hta : ta.getAttr "name" with _ | n <;> rw [hta] at hsome
  · exact absurd hsome (by simp)
  · dsimp only at hsome
    by_cases hn : n = ""
    · rw [if_pos hn] at hsome
      exact absurd hsome (by simp)
    · rw [if_neg hn] at hsome
      injection hsome with h
      rw [← h]

end FormParser

namespace FormParser

/-- The option fold of a `<select>` only touches options and value. -/
theorem selFold_name_type : ∀ (opts : List Node) (base : FormField),
    (opts.foldl selOption base).name = base.name ∧
    (opts.foldl selOption base).field_type = base.field_type
  | [], base => ⟨rfl, rfl⟩
  | opt :: opts, base => by
      rw [List.foldl_cons]
      refine (selFold_name_type opts (selOption base opt)).imp ?_ ?_ <;>
        intro h <;> rw [h] <;> unfold selOption <;> dsimp only <;> split <;> rfl

/-- The select loop emits the named selects' names in document order. -/
theorem selectFields_names (scope : NodeList) (rootTag : String) :
    (selectFields scope rootTag).map FormField.name =
      namedNames "select" scope := by
  unfold selectFields namedNames
  rw [List.map_filterMap]
  apply List.filterMap_congr
  intro sel _
  cases sel.getAttr "name" with
  | none => rfl
  | some n =>
      by_cases hn : n = ""
      · simp [hn]
      · dsimp only
        rw [if_neg hn, if_neg hn]
        simp only [Option.map_some']
        exact congrArg some (selFold_name_type _ _).1

/-- Every field of the select loop is a SELECT field. -/
theorem selectFields_types (scope : NodeList) (rootTag : String) :
    ∀ f ∈ selectFields scope rootTag, f.field_type = .SELECT := by
  intro f hf
  unfold selectFields at hf
  obtain ⟨sel, _, hsome⟩ := List.mem_filterMap.mp hf
  rcases hsel : sel.getAttr "name" with _ | n <;> rw [hsel] at hsome
  · exact absurd hsome (by simp)
  · dsimp only at hsome
    by_cases hn : n = ""
    · rw [if_pos hn] at hsome
      exact absurd hsome (by simp)
    · rw [if_neg hn] at hsome
      injection hsome with h
      rw [← h]
      exact (selFold_name_type (sel.descendants.filter (·.isTag "option")) _).2

end FormParser

/-- C1 (amended): the fields of a parsed region are grouped by source-element
kind, not document order: first the input-loop fields (TEXT/Radio/CHECKBOX,
whose names follow the name-level first-seen recurrence over the inputs'
`(type, name)` keys in document order), then one TEXTAREA field per named
`<textarea>` in document order, then one SELECT field per named `<select>`
in document order. -/
theorem C1_amended (roots : NodeList) :
    ∃ a b c, (FormParser.parse_form roots).fields = a ++ b ++ c ∧
      a.map FormField.name =
        ((FormParser.inputsIn (FormParser.parseScope roots)).map
          FormParser.inputKey).foldl FormParser.fieldNameStep [] ∧
      (∀ f ∈ a, f.field_type = .TEXT ∨ f.field_type = .Radio
        ∨ f.field_type = .CHECKBOX) ∧
      b.map FormField.name = FormParser.namedNames "textarea" (FormParser.parseScope roots) ∧
      (∀ f ∈ b, f.field_type = .TEXTAREA) ∧
      c.map FormField.name = FormParser.namedNames "select" (FormParser.parseScope roots) ∧
      (∀ f ∈ c, f.field_type = .SELECT) := by
  refine ⟨FormParser.inputFieldsOf (FormParser.parseScope roots)
      (FormParser.parseRootTag roots),
    FormParser.textareaFields (FormParser.parseScope roots)
      (FormParser.parseRootTag roots),
    FormParser.selectFields (FormParser.parseScope roots)
      (FormParser.parseRootTag roots),
    rfl, ?_, ?_, FormParser.textareaFields_names _ _,
    FormParser.textareaFields_types _ _,
    FormParser.selectFields_names _ _, FormParser.selectFields_types _ _⟩
  · rw [show FormParser.inputFieldsOf (FormParser.parseScope roots)
          (FormParser.parseRootTag roots)
        = (FormParser.inputsIn (FormParser.parseScope roots)).foldl
            (FormParser.processInput (FormParser.parseScope roots)
              (FormParser.parseRootTag roots)) [] from rfl,
      FormParser.inputFold_names]
    rfl
  · intro f hf
    exact FormParser.inputFold_types _ _ _ [] (fun g hg => absurd hg (List.not_mem_nil g)) f hf

namespace FormParser

/-- The choice-field names through the `(name, kind)` projection. -/
theorem choiceNames_pair : ∀ fs : List FormField,
    ((fs.filter fun f => f.field_type.isChoice).map FormField.name) =
      (((fs.map fun f => (f.name, f.field_type)).filter
        fun p => p.2.isChoice).map Prod.fst)
  | [] => rfl
  | f :: fs => by
      by_cases h : f.field_type.isChoice = true <;>
        simp [List.filter_cons, h, choiceNames_pair fs]

/-- One input-loop step preserves the distinctness of the names of
radio/checkbox fields. -/
theorem processInput_choiceNodup (scope : NodeList) (rootTag : String)
    (fields : List FormField) (inp : Node)
    (hinv : (((fields.filter fun f => f.field_type.isChoice).map
      FormField.name)).Nodup) :
    ((((processInput scope rootTag fields inp).filter
      fun f => f.field_type.isChoice).map FormField.name)).Nodup := by
  unfold processInput
  rcases hgetn : inp.getAttr "name" with _ | n
  · exact hinv
  · dsimp only
    by_cases hn : n = ""
    · rw [if_pos hn]; exact hinv
    · rw [if_neg hn]
      by_cases ht : textInputTypes.contains (pyLower ((inp.getAttr "type").getD "text")) = true
      · rw [if_pos ht]
        simpa [List.filter_append, FormFieldType.isChoice] using hinv
      · rw [if_neg ht]
        by_cases hr : (pyLower ((inp.getAttr "type").getD "text") = "radio"
            || pyLower ((inp.getAttr "type").getD "text") = "checkbox") = true
        · rw [if_pos hr]
          by_cases hm : fields.any (fun fl => fl.name == n) = true
          · rw [if_pos hm]
            rw [choiceNames_pair, appendOption_nameType, ← choiceNames_pair]
            exact hinv
          · rw [if_neg hm]
            have hnotin : n ∉ (fields.filter fun f => f.field_type.isChoice).map
                FormField.name := by
              intro hmem
              obtain ⟨f, hf, hfn⟩ := List.mem_map.mp hmem
              apply hm
              rw [List.any_eq_true]
              exact ⟨f, List.mem_of_mem_filter hf, by simp [hfn]⟩
            rw [List.filter_append, List.map_append]
            have hsing : (List.filter (fun f => f.field_type.isChoice)
                [({ name := n,
                    field_type := if pyLower ((inp.getAttr "type").getD "text") = "radio"
                      then FormFieldType.Radio else FormFieldType.CHECKBOX,
                    label := find_label scope rootTag n (inp.getAttr "id") none,
                    options := [((inp.getAttr "value").getD "",
                      match find_label scope rootTag n (inp.getAttr "id")
                          (some ((inp.getAttr "value").getD "")) with
                      | some l => if l = "" then (inp.getAttr "value").getD "" else l
                      | none => (inp.getAttr "value").getD "")],
                    value := none,
                    required := (inp.getAttr "required").isSome } : FormField)]).map
                  FormField.name = [n] := by
              by_cases hrad : pyLower ((inp.getAttr "type").getD "text") = "radio" <;>
                simp [List.filter_cons, hrad, FormFieldType.isChoice]
            rw [hsing]
            rw [List.nodup_append]
            exact ⟨hinv, List.nodup_singleton n, by
              intro a ha hb
              rw [List.mem_singleton.mp hb] at ha
              exact hnotin ha⟩
        · rw [if_neg hr]; exact hinv

end FormParser

namespace FormParser

/-- The input loop keeps radio/checkbox field names distinct. -/
theorem inputFold_choiceNodup (scope : NodeList) (rootTag : String) :
    ∀ (inputs : List Node) (fields : List FormField),
    (((fields.filter fun f => f.field_type.isChoice).map FormField.name)).Nodup →
    ((((inputs.foldl (processInput scope rootTag) fields).filter
      fun f => f.field_type.isChoice).map FormField.name)).Nodup
  | [], _fields, hinv => hinv
  | i :: inputs, fields, hinv =>
      inputFold_choiceNodup scope rootTag inputs
        (processInput scope rootTag fields i)
        (processInput_choiceNodup scope rootTag fields i hinv)

end FormParser

/-- C2 (amended): `name` is not unique in `FormData.fields` in general (two
text inputs, or an input and a textarea, sharing a name each produce their
own field); what the classifier does enforce is that no two radio/checkbox
fields share a name — a radio/checkbox field is only created when no field
of that name exists yet. -/
theorem C2_amended (roots : NodeList) :
    ((((FormParser.parse_form roots).fields.filter
      fun f => f.field_type.isChoice).map FormField.name)).Nodup := by
  have hfields : (FormParser.parse_form roots).fields =
      FormParser.inputFieldsOf (FormParser.parseScope roots)
        (FormParser.parseRootTag roots)
      ++ FormParser.textareaFields (FormParser.parseScope roots)
        (FormParser.parseRootTag roots)
      ++ FormParser.selectFields (FormParser.parseScope roots)
        (FormParser.parseRootTag roots) := rfl
  rw [hfields, List.filter_append, List.filter_append, List.map_append,
    List.map_append]
  have hb : (FormParser.textareaFields (FormParser.parseScope roots)
      (FormParser.parseRootTag roots)).filter (fun f => f.field_type.isChoice) = [] := by
    rw [List.filter_eq_nil_iff]
    intro f hf
    rw [FormParser.textareaFields_types _ _ f hf]
    simp [FormFieldType.isChoice]
  have hc : (FormParser.selectFields (FormParser.parseScope roots)
      (FormParser.parseRootTag roots)).filter (fun f => f.field_type.isChoice) = [] := by
    rw [List.filter_eq_nil_iff]
    intro f hf
    rw [FormParser.selectFields_types _ _ f hf]
    simp [FormFieldType.isChoice]
  rw [hb, hc]
  simp only [List.map_nil, List.append_nil]
  exact FormParser.inputFold_choiceNodup _ _ _ [] (by simp)

namespace FormParser

/-- `appendOption` for one name leaves the fields of any other name
untouched. -/
theorem appendOption_filter_other (n m : String) (opt : String × String)
    (hnm : m ≠ n) :
    ∀ fs : List FormField,
    (appendOption fs m opt).filter (fun f => f.name == n) =
      fs.filter (fun f => f.name == n)
  | [] => rfl
  | g :: fs => by
      by_cases hg : g.name = m
      · rw [show appendOption (g :: fs) m opt
            = { g with options := g.options ++ [opt] } :: fs by
            simp [appendOption, hg]]
        have : ¬ g.name = n := by rw [hg]; exact hnm
        simp [List.filter_cons, this]
      · rw [show appendOption (g :: fs) m opt = g :: appendOption fs m opt by
            simp [appendOption, hg]]
        by_cases hgn : g.name = n <;>
          simp [List.filter_cons, hgn, appendOption_filter_other n m opt hnm fs]

/-- When exactly one field carries the name, `appendOption` appends the
option to it. -/
theorem appendOption_filter_self (n : String) (opt : String × String) :
    ∀ (fs : List FormField) (f : FormField),
    fs.filter (fun f => f.name == n) = [f] →
    (appendOption fs n opt).filter (fun f => f.name == n) =
      [{ f with options := f.options ++ [opt] }]
  | [], f, h => by simp at h
  | g :: fs, f, h => by
      by_cases hg : g.name = n
      · rw [List.filter_cons_of_pos (by simp [hg])] at h
        injection h with h1 h2
        rw [show appendOption (g :: fs) n opt
            = { g with options := g.options ++ [opt] } :: fs by
            simp [appendOption, hg]]
        rw [List.filter_cons_of_pos (by simp [hg]), h2, h1]
      · rw [List.filter_cons_of_neg (by simp [hg])] at h
        rw [show appendOption (g :: fs) n opt = g :: appendOption fs n opt by
            simp [appendOption, hg]]
        rw [List.filter_cons_of_neg (by simp [hg])]
        exact appendOption_filter_self n opt fs f h

end FormParser

namespace FormParser

/-- Processing an input that does not carry the name leaves the fields of
that name untouched. -/
theorem processInput_filter_other (scope : NodeList) (rootTag : String)
    (fields : List FormField) (i : Node) (n : String)
    (hin : ¬ i.getAttr "name" = some n) :
    (processInput scope rootTag fields i).filter (fun f => f.name == n) =
      fields.filter (fun f => f.name == n) := by
  unfold processInput
  rcases hgetn : i.getAttr "name" with _ | m
  · rfl
  · dsimp only
    have hmn : m ≠ n := by
      intro h; exact hin (by rw [hgetn, h])
    by_cases hm0 : m = ""
    · rw [if_pos hm0]
    · rw [if_neg hm0]
      by_cases ht : textInputTypes.contains (pyLower ((i.getAttr "type").getD "text")) = true
      · rw [if_pos ht, List.filter_append,
          List.filter_cons_of_neg (by simp [hmn]), List.filter_nil, List.append_nil]
      · rw [if_neg ht]
        by_cases hr : (pyLower ((i.getAttr "type").getD "text") = "radio"
            || pyLower ((i.getAttr "type").getD "text") = "checkbox") = true
        · rw [if_pos hr]
          by_cases hany : fields.any (fun fl => fl.name == m) = true
          · rw [if_pos hany, appendOption_filter_other n m _ hmn]
          · rw [if_neg hany, List.filter_append,
              List.filter_cons_of_neg (by simp [hmn]), List.filter_nil, List.append_nil]
        · rw [if_neg hr]

/-- Processing a radio/checkbox input of the group's name either creates
the group's field or appends to it. -/
theorem processInput_named_choice (scope : NodeList) (rootTag : String)
    (fields : List FormField) (i : Node) (n : String)
    (hn : ¬ n = "") (hin : i.getAttr "name" = some n)
    (hty : inputTypeOf i = "radio" ∨ inputTypeOf i = "checkbox") :
    ∃ lab : String,
      processInput scope rootTag fields i =
        if fields.any (fun fl => fl.name == n) then
          appendOption fields n ((i.getAttr "value").getD "", lab)
        else
          fields ++ [mkChoiceField scope rootTag n i lab] := by
  refine ⟨(match find_label scope rootTag n (i.getAttr "id")
      (some ((i.getAttr "value").getD "")) with
    | some l => if l = "" then (i.getAttr "value").getD "" else l
    | none => (i.getAttr "value").getD ""), ?_⟩
  unfold processInput
  rw [hin]
  dsimp only
  rw [if_neg hn]
  have hnotext : ¬ textInputTypes.contains (pyLower ((i.getAttr "type").getD "text")) = true := by
    rcases hty with h | h <;> rw [show pyLower ((i.getAttr "type").getD "text")
        = inputTypeOf i from rfl, h] <;> decide
  rw [if_neg hnotext]
  have hchoice : (pyLower ((i.getAttr "type").getD "text") = "radio"
      || pyLower ((i.getAttr "type").getD "text") = "checkbox") = true := by
    rcases hty with h | h <;>
      rw [show pyLower ((i.getAttr "type").getD "text") = inputTypeOf i from rfl, h] <;>
      decide
  rw [if_pos hchoice]
  rfl

end FormParser

namespace FormParser

/-- The group invariant of the input loop: along the fold, the fields
carrying a radio/checkbox group's name are either absent (no input of the
group processed yet) or a single field holding one option per processed
input of that name, in document order. -/
theorem inputFold_group (scope : NodeList) (rootTag : String) (n : String)
    (hn : ¬ n = "") :
    ∀ (inputs : List Node) (fields : List FormField) (acc : List String),
    (∀ i ∈ inputs, i.getAttr "name" = some n →
      inputTypeOf i = "radio" ∨ inputTypeOf i = "checkbox") →
    (((fields.filter fun f => f.name == n) = [] ∧ acc = []) ∨
      (∃ f, (fields.filter fun f => f.name == n) = [f] ∧
        f.options.map Prod.fst = acc)) →
    ((((inputs.foldl (processInput scope rootTag) fields).filter
        fun f => f.name == n) = [] ∧
      acc ++ (inputs.filter fun i => i.getAttr "name" == some n).map
        (fun i => (i.getAttr "value").getD "") = []) ∨
      (∃ f, ((inputs.foldl (processInput scope rootTag) fields).filter
          fun f => f.name == n) = [f] ∧
        f.options.map Prod.fst =
          acc ++ (inputs.filter fun i => i.getAttr "name" == some n).map
            (fun i => (i.getAttr "value").getD "")))
  | [], fields, acc, hty, hstate => by
      simpa using hstate
  | i :: inputs, fields, acc, hty, hstate => by
      rw [List.foldl_cons]
      by_cases hin : i.getAttr "name" = some n
      · have hchoice := hty i (List.mem_cons_self i inputs) hin
        obtain ⟨lab, hstep⟩ :=
          processInput_named_choice scope rootTag fields i n hn hin hchoice
        have hfiltercons : ((i :: inputs).filter fun j => j.getAttr "name" == some n)
            = i :: (inputs.filter fun j => j.getAttr "name" == some n) :=
          List.filter_cons_of_pos (by simp [hin])
        rw [hfiltercons, List.map_cons]
        rcases hstate with ⟨hfil, hacc⟩ | ⟨f, hfil, hopts⟩
        · have hany : ¬ fields.any (fun fl => fl.name == n) = true := by
            rw [List.any_eq_true]
            rintro ⟨g, hg, hgn⟩
            have hmem : g ∈ fields.filter fun f => f.name == n :=
              List.mem_filter.mpr ⟨hg, hgn⟩
            rw [hfil] at hmem
            exact absurd hmem (List.not_mem_nil g)
          rw [hstep, if_neg hany]
          subst hacc
          have hfil2 : ((fields ++ [mkChoiceField scope rootTag n i lab]).filter
              fun f => f.name == n) = [mkChoiceField scope rootTag n i lab] := by
            rw [List.filter_append, hfil, List.filter_cons_of_pos (by simp [mkChoiceField]),
              List.filter_nil]
            rfl
          have hrec := inputFold_group scope rootTag n hn inputs
            (fields ++ [mkChoiceField scope rootTag n i lab])
            [(i.getAttr "value").getD ""]
            (fun j hj => hty j (List.mem_cons_of_mem i hj))
            (Or.inr ⟨mkChoiceField scope rootTag n i lab, hfil2, rfl⟩)
          simpa using hrec
        · have hfmem : f ∈ fields.filter fun f => f.name == n := by
            rw [hfil]
            exact List.mem_cons_self f []
          have hany : fields.any (fun fl => fl.name == n) = true := by
            rw [List.any_eq_true]
            exact ⟨f, (List.mem_filter.mp hfmem).1, (List.mem_filter.mp hfmem).2⟩
          rw [hstep, if_pos hany]
          have hfil2 := appendOption_filter_self n
            ((i.getAttr "value").getD "", lab) fields f hfil
          have hrec := inputFold_group scope rootTag n hn inputs
            (appendOption fields n ((i.getAttr "value").getD "", lab))
            (acc ++ [(i.getAttr "value").getD ""])
            (fun j hj => hty j (List.mem_cons_of_mem i hj))
            (Or.inr ⟨{ f with
                options := f.options ++ [((i.getAttr "value").getD "", lab)] },
              hfil2, by simp [hopts]⟩)
          simpa using hrec
      · have hstep := processInput_filter_other scope rootTag fields i n hin
        have hfiltercons : ((i :: inputs).filter fun j => j.getAttr "name" == some n)
            = inputs.filter fun j => j.getAttr "name" == some n :=
          List.filter_cons_of_neg (by simp [hin])
        rw [hfiltercons]
        rcases hstate with ⟨hfil, hacc⟩ | ⟨f, hfil, hopts⟩
        · exact inputFold_group scope rootTag n hn inputs _ acc
            (fun j hj => hty j (List.mem_cons_of_mem i hj))
            (Or.inl ⟨by rw [hstep]; exact hfil, hacc⟩)
        · exact inputFold_group scope rootTag n hn inputs _ acc
            (fun j hj => hty j (List.mem_cons_of_mem i hj))
            (Or.inr ⟨f, by rw [hstep]; exact hfil, hopts⟩)

end FormParser

/-- C4: for a region in which every element named `n` is a radio/checkbox
`<input>` (and at least one exists), `parse_form` emits exactly one field
named `n`, whose options carry one value per `<input>` of that name, in
document order. -/
theorem C4_radio_group (roots : NodeList) (n : String) (hn : ¬ n = "")
    (hty : ∀ i ∈ FormParser.inputsNamed (FormParser.parseScope roots) n,
      FormParser.inputTypeOf i = "radio" ∨ FormParser.inputTypeOf i = "checkbox")
    (hex : FormParser.inputsNamed (FormParser.parseScope roots) n ≠ [])
    (hta : n ∉ FormParser.namedNames "textarea" (FormParser.parseScope roots))
    (hsel : n ∉ FormParser.namedNames "select" (FormParser.parseScope roots)) :
    ∃ f, ((FormParser.parse_form roots).fields.filter fun g => g.name == n) = [f] ∧
      f.options.map Prod.fst =
        (FormParser.inputsNamed (FormParser.parseScope roots) n).map
          (fun i => (i.getAttr "value").getD "") := by
  have hB : ((FormParser.textareaFields (FormParser.parseScope roots)
      (FormParser.parseRootTag roots)).filter fun g => g.name == n) = [] := by
    rw [List.filter_eq_nil_iff]
    intro f hf hfn
    apply hta
    rw [← FormParser.textareaFields_names (FormParser.parseScope roots)
      (FormParser.parseRootTag roots)]
    exact List.mem_map.mpr ⟨f, hf, by simpa using hfn⟩
  have hC : ((FormParser.selectFields (FormParser.parseScope roots)
      (FormParser.parseRootTag roots)).filter fun g => g.name == n) = [] := by
    rw [List.filter_eq_nil_iff]
    intro f hf hfn
    apply hsel
    rw [← FormParser.selectFields_names (FormParser.parseScope roots)
      (FormParser.parseRootTag roots)]
    exact List.mem_map.mpr ⟨f, hf, by simpa using hfn⟩
  have hty' : ∀ i ∈ FormParser.inputsIn (FormParser.parseScope roots),
      i.getAttr "name" = some n →
      FormParser.inputTypeOf i = "radio" ∨ FormParser.inputTypeOf i = "checkbox" := by
    intro i hi hiname
    exact hty i (List.mem_filter.mpr ⟨hi, by simp [hiname]⟩)
  have hfold := FormParser.inputFold_group (FormParser.parseScope roots)
    (FormParser.parseRootTag roots) n hn
    (FormParser.inputsIn (FormParser.parseScope roots)) [] []
    hty' (Or.inl ⟨rfl, rfl⟩)
  rcases hfold with ⟨hfil, hvals⟩ | ⟨f, hfil, hopts⟩
  · exfalso
    apply hex
    rw [List.nil_append] at hvals
    exact List.map_eq_nil_iff.mp hvals
  · refine ⟨f, ?_, by simpa using hopts⟩
    rw [show (FormParser.parse_form roots).fields =
        FormParser.inputFieldsOf (FormParser.parseScope roots)
          (FormParser.parseRootTag roots)
        ++ FormParser.textareaFields (FormParser.parseScope roots)
          (FormParser.parseRootTag roots)
        ++ FormParser.selectFields (FormParser.parseScope roots)
          (FormParser.parseRootTag roots) from rfl,
      List.filter_append, List.filter_append, hB, hC, List.append_nil,
      List.append_nil]
    exact hfil

/-- Witness for C4: on a concrete two-radio group named `g`, the parse has
exactly one field named `g` whose option values are `1` and `2` in
document order. -/
theorem C4_radio_group_witness :
    (¬ "g" = "") ∧
    (∃ f, ((FormParser.parse_form c4region).fields.filter
        fun g => g.name == "g") = [f] ∧
      f.options.map Prod.fst =
        (FormParser.inputsNamed (FormParser.parseScope c4region) "g").map
          (fun i => (i.getAttr "value").getD "")) :=
  ⟨by decide, C4_radio_group c4region "g" (by decide) (by decide) (by decide)
    (by decide) (by decide)⟩

